import Mathlib

/-!
Verification of the signal-generation pipeline of the
`ML-trend-systematic-trading` repository
(`src/Signal_Generator_Final_Version.ipynb`).

The notebook builds, over a daily OHLC table held in pandas, a family of
rolling indicators (SMA, EMA, rolling volatility, downside volatility,
previous-day average range), rolling z-scores of those indicators, and two
families of strategy columns (moving-average-crossover trend following and
range-retracement counter trend).  Every cell value is a float; pandas uses
IEEE `NaN` as its missing marker, and arithmetic on present values is IEEE
float arithmetic.

Embedding conventions, used throughout:
* numeric cell values are modelled exactly as rationals (`ℚ`);
* a column of numeric-or-missing values is `List (Option ℚ)` with `none`
  for `NaN`;
* where a computation can produce IEEE non-finite values (division by a
  zero or missing standard deviation, counter-trend returns), the value
  domain is the inductive `Val` below, which keeps `NaN`, `+inf`, `-inf`
  and finite values apart; an irrational value `s·√r` produced by dividing
  by a standard deviation is kept exactly as `Val.rootQ s r` (the map
  `t ↦ (sign t, t²)` is injective on the reals, so this encoding is
  lossless and equality of encodings is equality of the real values);
* Python comparisons against `NaN` are `False`, mirrored by the `Option`
  comparisons below returning `false` on `none`;
* a Python exception escaping a function (e.g. the unbound-variable error
  in `standardizeTimeString` on a separator-free string) is modelled as
  `none` of an `Option` result.
-/

namespace MLTrend

/-- Arithmetic mean of a list of rationals (`np.mean`, `rolling().mean()`
on a fully-present window).  `[]` is unreachable at the call sites used by
the theorems. -/
def meanQ (l : List ℚ) : ℚ := l.sum / (l.length : ℚ)

/-- Sample variance with the `N-1` denominator, i.e. the square of
`np.std(·, ddof=1)` and of `rolling().std()` on a fully-present window.
The pipeline stores the square root of this; since both sides of every
comparison we make are square roots of nonnegative rationals, definedness
and equality of the stored floats correspond one-to-one to definedness and
equality of these variances. -/
def svarQ (l : List ℚ) : ℚ :=
  ((l.map (fun x => (x - meanQ l) ^ 2)).sum) / ((l.length : ℚ) - 1)

/-- All values of an `Option` column window, if none is missing. -/
def allSome : List (Option ℚ) → Option (List ℚ)
  | [] => some []
  | none :: _ => none
  | some x :: rest => (allSome rest).map (fun l => x :: l)

/-- Cell access in a numeric-or-missing column: out of range reads as
missing. -/
def getOq (xs : List (Option ℚ)) (i : Nat) : Option ℚ := (xs.get? i).getD none

/-- Exact value domain for cells that can hold IEEE non-finite results.
`rootQ s r` encodes the real number `s·√r` (used only with `0 < r`,
`s ∈ {1,-1}`). -/
inductive Val where
  | nan : Val
  | q : ℚ → Val
  | pinf : Val
  | ninf : Val
  | rootQ : Int → ℚ → Val
deriving DecidableEq, Repr

/-- IEEE division of two finite values: `a/0` is `±inf` by the sign of
`a`, `0/0` is `NaN` (numpy emits these with a warning; the notebook
suppresses warnings). -/
def qdivVal (a b : ℚ) : Val :=
  if b = 0 then (if 0 < a then Val.pinf else if a < 0 then Val.ninf else Val.nan)
  else Val.q (a / b)

/-- Numeric-or-missing cell as a `Val`. -/
def oqVal : Option ℚ → Val
  | some x => Val.q x
  | none => Val.nan

/-- `Val` cell back to numeric-or-missing.  The columns the pipeline feeds
into normalization (the raw OHLC-derived indicator columns) contain only
finite or `NaN` cells, so the non-finite constructors are unreachable
there and read as missing. -/
def valToOq : Val → Option ℚ
  | Val.q x => some x
  | _ => none

/-- Cell access in a `Val` column: out of range reads as missing. -/
def getV (l : List Val) (i : Nat) : Val := (l.get? i).getD Val.nan

/- ### Date normalization (`standardizeTimeString`) -/

/-- Python `sep in timeString` membership test, on the character list. -/
def hasChar (sep : Char) : List Char → Bool
  | [] => false
  | c :: cs => (c = sep) || hasChar sep cs

/-- Python `str.split(sep)` for a one-character separator. -/
def splitChar (sep : Char) : List Char → List (List Char)
  | [] => [[]]
  | c :: cs =>
    if c = sep then [] :: splitChar sep cs
    else
      match splitChar sep cs with
      | [] => [[c]]
      | g :: gs => (c :: g) :: gs

/-- Zero-padding of a single-character component
(`'0' if len(x)==1 else ''` prepended). -/
def pad2 (l : List Char) : List Char := if l.length = 1 then '0' :: l else l

/-- Embedding of `standardizeTimeString`.  The source splits on `'-'` if
present, else on `'/'`; with neither separator the local variable
`timeStringList` is never bound and the next line raises an unhandled
`UnboundLocalError`, modelled as `none`.  It then joins
`[parts[0], pad(parts[1]), pad(parts[2])]` with `'/'`; fewer than three
parts raises `IndexError`, also modelled as `none`. -/
def standardizeTimeString (timeString : String) : Option String :=
  let cs := timeString.toList
  let parts? : Option (List (List Char)) :=
    if hasChar '-' cs then some (splitChar '-' cs)
    else if hasChar '/' cs then some (splitChar '/' cs)
    else none
  match parts? with
  | none => none
  | some (a :: b :: c :: _) =>
      some (String.mk (a ++ '/' :: (pad2 b ++ '/' :: pad2 c)))
  | some _ => none

/-- Spec-side definition (follows the spec's words, for comparison only):
a string is in canonical `YYYY/MM/DD` form when it consists of a 4-digit
year, a 2-digit month and a 2-digit day joined by `'/'`. -/
def specCanonicalYMD (s : String) : Bool :=
  match splitChar '/' s.toList with
  | [y, m, d] =>
      (y.length == 4) && (m.length == 2) && (d.length == 2) &&
        (y ++ m ++ d).all Char.isDigit
  | _ => false

/- ### Rolling statistics on numeric-or-missing columns -/

/-- Pandas `rolling(window=w).mean()` at position `i`: needs a full window
of `w` present values ending at `i` (window `w = 0` is rejected by pandas,
modelled as missing). -/
def rollMeanAt (w : Nat) (xs : List (Option ℚ)) (i : Nat) : Option ℚ :=
  if w = 0 ∨ i + 1 < w then none
  else (allSome ((xs.drop (i + 1 - w)).take w)).map meanQ

/-- Pandas `rolling(window=w).std()` at position `i`, encoded as the
variance (see `svarQ`).  A window of size `< 2` gives `NaN` (the `N-1`
denominator degenerates). -/
def rollVarAt (w : Nat) (xs : List (Option ℚ)) (i : Nat) : Option ℚ :=
  if w < 2 ∨ i + 1 < w then none
  else (allSome ((xs.drop (i + 1 - w)).take w)).map svarQ

/-- The rolling-mean column of `zCol` before the shift. -/
def rollMeanColO (w : Nat) (xs : List (Option ℚ)) : List (Option ℚ) :=
  (List.range xs.length).map (rollMeanAt w xs)

/-- A stored standard-deviation cell from a variance cell: `√0 = 0`
exactly, a positive variance `v` is stored as the exact `√v`. -/
def stdOfVar : Option ℚ → Val
  | none => Val.nan
  | some v => if v = 0 then Val.q 0 else Val.rootQ 1 v

/-- The rolling-std column of `zCol` before the shift. -/
def stdColO (w : Nat) (xs : List (Option ℚ)) : List Val :=
  (List.range xs.length).map (fun i => stdOfVar (rollVarAt w xs i))

/-- Pandas `.shift(1)` on a `Val` column. -/
def shiftV (c : List Val) : List Val :=
  (List.range c.length).map (fun i => if i = 0 then Val.nan else getV c (i - 1))

/-- The one-bar-lagged rolling mean read by `zCol` at position `i`
(`rolling(w).mean().shift(1)`). -/
def laggedMean (w : Nat) (xs : List (Option ℚ)) (i : Nat) : Option ℚ :=
  if i = 0 then none else rollMeanAt w xs (i - 1)

/-- The one-bar-lagged rolling variance (squared std) read by `zCol` at
position `i` (`rolling(w).std().shift(1)`, squared). -/
def laggedVar (w : Nat) (xs : List (Option ℚ)) (i : Nat) : Option ℚ :=
  if i = 0 then none else rollVarAt w xs (i - 1)

/-- IEEE subtraction of two cells as it appears in `zCol`'s row lambda
(`row[col] - row['temp_base_mean']`); operands there are finite or `NaN`. -/
def vsub : Val → Val → Val
  | Val.q a, Val.q b => Val.q (a - b)
  | _, _ => Val.nan

/-- IEEE division of a finite-or-`NaN` numerator by a stored
standard-deviation cell (`q 0`, `rootQ 1 v`, or `NaN`): division by the
zero std follows `qdivVal`; division by `√v` with `v > 0` gives the exact
value `sign(a)·√(a²/v)`. -/
def vdivStd : Val → Val → Val
  | Val.q a, Val.q b => qdivVal a b
  | Val.q a, Val.rootQ _ v =>
      if a = 0 then Val.q 0
      else Val.rootQ (if 0 < a then 1 else -1) (a ^ 2 / v)
  | _, _ => Val.nan

/-- The z-score column written by `zCol` for a source column `xs`:
`(x - mean)/std` with `mean` and `std` the one-bar-lagged rolling
statistics (`temp_base_mean`, `temp_base_std`). -/
def zColVals (w : Nat) (xs : List (Option ℚ)) : List Val :=
  let mcol := shiftV ((rollMeanColO w xs).map oqVal)
  let scol := shiftV (stdColO w xs)
  (List.range xs.length).map
    (fun i => vdivStd (vsub (oqVal (getOq xs i)) (getV mcol i)) (getV scol i))

/- ### SMA / EMA / trend-following signal -/

/-- `calSMA` at one position: trailing mean of `w` values of a fully
present source column (the `Close` column has no missing values). -/
def smaAt (w : Nat) (xs : List ℚ) (i : Nat) : Option ℚ :=
  if w = 0 ∨ i + 1 < w then none
  else some (meanQ ((xs.drop (i + 1 - w)).take w))

/-- The `SMA_w` column of `calSMA`. -/
def calSMA (w : Nat) (xs : List ℚ) : List (Option ℚ) :=
  (List.range xs.length).map (smaAt w xs)

/-- The EMA value at column index `w - 1 + n`, following `calEMA`'s
sequential loop: seed `df.loc[w-1] = mean(first w values)`, then
`df.loc[i] = df.loc[i-1]*(1-k) + df.loc[i]_source*k` with
`k = 2/(w+1)` (`numerator = 2` default). -/
def emaAt (w : Nat) (xs : List ℚ) : Nat → ℚ
  | 0 => meanQ (xs.take w)
  | n + 1 =>
      emaAt w xs n * (1 - 2 / ((w : ℚ) + 1)) +
        xs.getD (w + n) 0 * (2 / ((w : ℚ) + 1))

/-- The `EMA_w` cell at position `i`: missing before index `w - 1`.  A
window of `0` or exceeding the series length is not exercised by the
pipeline (the notebook's series has 5515 rows against windows up to 260)
and is modelled as missing. -/
def emaAtO (w : Nat) (xs : List ℚ) (i : Nat) : Option ℚ :=
  if w = 0 ∨ xs.length < w ∨ i + 1 < w then none
  else some (emaAt w xs (i - (w - 1)))

/-- The `EMA_w` column of `calEMA`. -/
def calEMA (w : Nat) (xs : List ℚ) : List (Option ℚ) :=
  (List.range xs.length).map (emaAtO w xs)

/-- The two moving-average types accepted by `create_FS_ret`. -/
inductive MAType where
  | sma : MAType
  | ema : MAType
deriving DecidableEq, Repr

/-- Moving-average column cell by type. -/
def maAt : MAType → Nat → List ℚ → Nat → Option ℚ
  | MAType.sma, w, xs, i => smaAt w xs i
  | MAType.ema, w, xs, i => emaAtO w xs i

/-- Python `row[f_col] > row[s_col]` on possibly-`NaN` cells: any
comparison involving `NaN` is `False`. -/
def oGT : Option ℚ → Option ℚ → Bool
  | some a, some b => decide (b < a)
  | _, _ => false

/-- The `{MA}_{F}_{S}_Signal` column built inside `create_FS_ret`:
`1 if MA_F > MA_S else -1` row-wise, then `.shift(1)`.  So the cell at
position `i` compares the two moving averages at position `i - 1`. -/
def createFSsignal (ty : MAType) (F S : Nat) (xs : List ℚ) : List (Option ℚ) :=
  (List.range xs.length).map
    (fun i =>
      if i = 0 then none
      else some (if oGT (maAt ty F xs (i - 1)) (maAt ty S xs (i - 1))
                 then (1 : ℚ) else -1))

/- ### Sortino (downside) volatility -/

/-- The list comprehension `[ret for ret in window if ret < 0]`: a `NaN`
compares `False` against `0` and is dropped. -/
def negOnly (window : List (Option ℚ)) : List ℚ :=
  window.filterMap
    (fun o => match o with
      | some r => if r < 0 then some r else none
      | none => none)

/-- The `result_list` computed (and returned, but discarded by every
caller) by `calSortinoMV`: `w - 1` leading `NaN`s, then for each window
the `ddof=1` standard deviation of its strictly-negative values — `NaN`
when fewer than two such values exist.  Encoded as variances (see
`svarQ`). -/
def calSortinoMVResult (w : Nat) (xs : List (Option ℚ)) : List (Option ℚ) :=
  (List.range (w - 1)).map (fun _ => (none : Option ℚ)) ++
    (List.range (xs.length - (w - 1))).map
      (fun k =>
        let neg := negOnly ((xs.drop k).take w)
        if neg.length < 2 then none else some (svarQ neg))

/-- The column `calSortinoMV` actually stores under the name
`Sortino_MV_w`: `df[col].rolling(window=w).std()` — the ordinary rolling
sample standard deviation of all window values, not the downside one.
Encoded as variances (see `svarQ`). -/
def calSortinoMVStored (w : Nat) (xs : List (Option ℚ)) : List (Option ℚ) :=
  (List.range xs.length).map (rollVarAt w xs)

/- ### Previous-day average range -/

/-- The `Prev_w_AvDayrange` column of `calPreviousDayrange`:
`(High - Low)` row-wise, a trailing `w`-bar rolling mean, then
`.shift(1)`. -/
def prevAvDayrange (w : Nat) (high low : List ℚ) : List (Option ℚ) :=
  let dr := List.zipWith (fun h l => h - l) high low
  (List.range dr.length).map
    (fun i => if i = 0 then none else smaAt w dr (i - 1))

/- ### Counter-trend strategies (`create_CT_ret`) -/

/-- One row of the table as read by `create_CT_ret`: today's OHLC plus
the shifted `Prev_high`/`Prev_low` columns and the
`Prev_period_AvDayrange` column (missing on the rows lacking history). -/
structure CTRow where
  openP : ℚ
  highP : ℚ
  lowP : ℚ
  closeP : ℚ
  prevHigh : Option ℚ
  prevLow : Option ℚ
  prevAvg : Option ℚ
deriving DecidableEq, Repr

/-- Python `x < cell` on a possibly-`NaN` cell: `False` when missing. -/
def ltO (x : ℚ) (o : Option ℚ) : Bool :=
  match o with
  | some v => decide (x < v)
  | none => false

/-- Python `x > cell` on a possibly-`NaN` cell: `False` when missing. -/
def gtO (x : ℚ) (o : Option ℚ) : Bool :=
  match o with
  | some v => decide (v < x)
  | none => false

/-- Long `Hit_level`: `Prev_high - Prev_period_AvDayrange * retracement`
(`NaN` propagates). -/
def hitLevelLong (r : CTRow) (ret : ℚ) : Option ℚ :=
  match r.prevHigh, r.prevAvg with
  | some ph, some pa => some (ph - pa * ret)
  | _, _ => none

/-- Long `Hit?` flag: `1 if Low < Hit_level else 0`. -/
def hitLong (r : CTRow) (ret : ℚ) : ℚ :=
  if ltO r.lowP (hitLevelLong r ret) then 1 else 0

/-- Long `HitAt` (entry price):
`Open*Hit? if Open < Hit_level else Hit_level*Hit?`. -/
def hitAtLong (r : CTRow) (ret : ℚ) : Option ℚ :=
  if ltO r.openP (hitLevelLong r ret) then some (r.openP * hitLong r ret)
  else (hitLevelLong r ret).map (fun lv => lv * hitLong r ret)

/-- Long `ExitPr`: `Close * Hit?`. -/
def exitPrLong (r : CTRow) (ret : ℚ) : ℚ := r.closeP * hitLong r ret

/-- The expression `ExitPr/HitAt - 1` under IEEE semantics: `NaN` entry
propagates, a zero entry gives `±inf` (and `inf - 1 = inf`). -/
def retFromPrices (ex : ℚ) (entry : Option ℚ) : Val :=
  match entry with
  | none => Val.nan
  | some e =>
      if e = 0 then (if 0 < ex then Val.pinf else if ex < 0 then Val.ninf else Val.nan)
      else Val.q (ex / e - 1)

/-- Long `Long_period_retracement_Return`:
`ExitPr/HitAt - 1 if Hit? == 1 else 0`. -/
def ctRetLong (r : CTRow) (ret : ℚ) : Val :=
  if hitLong r ret = 1 then retFromPrices (exitPrLong r ret) (hitAtLong r ret)
  else Val.q 0

/-- Short `Hit_level`: `Prev_low + Prev_period_AvDayrange * retracement`. -/
def hitLevelShort (r : CTRow) (ret : ℚ) : Option ℚ :=
  match r.prevLow, r.prevAvg with
  | some pl, some pa => some (pl + pa * ret)
  | _, _ => none

/-- Short `Hit?` flag: `1 if High > Hit_level else 0`. -/
def hitShort (r : CTRow) (ret : ℚ) : ℚ :=
  if gtO r.highP (hitLevelShort r ret) then 1 else 0

/-- Short `HitAt`:
`Open*Hit? if Open > Hit_level else Hit_level*Hit?`. -/
def hitAtShort (r : CTRow) (ret : ℚ) : Option ℚ :=
  if gtO r.openP (hitLevelShort r ret) then some (r.openP * hitShort r ret)
  else (hitLevelShort r ret).map (fun lv => lv * hitShort r ret)

/-- Short `ExitPr`: `Close * Hit?`. -/
def exitPrShort (r : CTRow) (ret : ℚ) : ℚ := r.closeP * hitShort r ret

/-- Short `Short_period_retracement_Return`. -/
def ctRetShort (r : CTRow) (ret : ℚ) : Val :=
  if hitShort r ret = 1 then retFromPrices (exitPrShort r ret) (hitAtShort r ret)
  else Val.q 0

/- ### The table and the normalization engine's skip -/

/-- A pandas data frame as the pipeline uses it: named columns of `Val`
cells, in insertion order. -/
abbrev Table := List (String × List Val)

/-- Column assignment `df[name] = values`: replaces an existing column in
place, appends a new one at the end. -/
def setColT : Table → String → List Val → Table
  | [], n, v => [(n, v)]
  | (m, c) :: rest, n, v =>
      if m = n then (m, v) :: rest else (m, c) :: setColT rest n v

/-- Column read `df[name]` (absent column unreachable at the call sites
modelled here). -/
def getColT (t : Table) (n : String) : List Val := (t.lookup n).getD []

/-- Does the character list start with `'z'`, `'_'`? -/
def startsWithZU : List Char → Bool
  | 'z' :: '_' :: _ => true
  | _ => false

/-- Python `'z_' in col`: some position starts the substring `"z_"`. -/
def hasZU : List Char → Bool
  | [] => false
  | c :: cs => startsWithZU (c :: cs) || hasZU cs

/-- Common body of `zCol` / `zzCol` / `zzzCol` (they differ only in the
output-name prefix `zp` and the window):  if `'z_' in col` the function
returns `0` immediately and the frame is untouched; otherwise it writes
`temp_base_mean` (rolling mean, then overwritten by its shift),
`temp_base_std` (rolling std, then overwritten by its shift) and the new
column `zp ++ col` holding `(row[col] - mean)/std` (see `zColVals`). -/
def zColFam (zp : String) (w : Nat) (df : Table) (col : String) : Table :=
  if hasZU col.toList then df
  else
    let base := (getColT df col).map valToOq
    let df1 := setColT df "temp_base_mean" ((rollMeanColO w base).map oqVal)
    let df2 := setColT df1 "temp_base_mean" (shiftV ((rollMeanColO w base).map oqVal))
    let df3 := setColT df2 "temp_base_std" (stdColO w base)
    let df4 := setColT df3 "temp_base_std" (shiftV (stdColO w base))
    setColT df4 (zp ++ col) (zColVals w base)

/-- `zCol`: short-scale normalization, window 20, prefix `z_`. -/
def zCol (df : Table) (col : String) : Table := zColFam "z_" 20 df col

/-- `zzCol`: medium-scale normalization, window 60, prefix `zz_`. -/
def zzCol (df : Table) (col : String) : Table := zColFam "zz_" 60 df col

/-- `zzzCol`: long-scale normalization, window 260, prefix `zzz_`. -/
def zzzCol (df : Table) (col : String) : Table := zColFam "zzz_" 260 df col

/- ### Helper lemmas -/

/-- Cell access in an index-built column. -/
theorem get_range_map {α : Type} (f : Nat → α) (n i : Nat) :
    ((List.range n).map f).get? i = if i < n then some (f i) else none := by
  by_cases h : i < n
  · rw [List.get?_map, List.get?_range h, if_pos h]
    rfl
  · rw [List.get?_eq_none.mpr, if_neg h]
    simpa [List.length_range] using Nat.le_of_not_lt h

/-- Agreement on all cells below `t` gives agreement of the length-`t`
prefixes. -/
theorem take_congr {α : Type} (c c2 : List α) (t : Nat)
    (h : ∀ i, i < t → c2.get? i = c.get? i) : c2.take t = c.take t := by
  apply List.ext
  intro i
  by_cases hi : i < t
  · rw [List.get?_take hi, List.get?_take hi, h i hi]
  · have h1 : (c2.take t).get? i = none := by
      apply List.get?_eq_none.mpr
      simp [List.length_take]
      omega
    have h2 : (c.take t).get? i = none := by
      apply List.get?_eq_none.mpr
      simp [List.length_take]
      omega
    rw [h1, h2]

/-- A trailing window lying inside the length-`t` prefix is determined by
that prefix. -/
theorem window_congr {α : Type} (c c2 : List α) (t w : Nat)
    (h : c2.take t = c.take t) (hw : w ≤ t) :
    (c2.drop (t - w)).take w = (c.drop (t - w)).take w := by
  have h2 := congrArg (List.drop (t - w)) h
  rw [List.drop_take, List.drop_take] at h2
  have : t - (t - w) = w := by omega
  rwa [this] at h2

/-- Python split of a separator-free string returns the whole string. -/
theorem splitChar_nosep (sep : Char) (x : List Char)
    (h : hasChar sep x = false) : splitChar sep x = [x] := by
  induction x with
  | nil => rfl
  | cons c cs ih =>
    simp only [hasChar, Bool.or_eq_false_iff, decide_eq_false_iff_not] at h
    rw [splitChar, if_neg h.1, ih h.2]

/-- Python split peels off a separator-free leading component. -/
theorem splitChar_append (sep : Char) (x y : List Char)
    (h : hasChar sep x = false) :
    splitChar sep (x ++ sep :: y) = x :: splitChar sep y := by
  induction x with
  | nil =>
    simp only [List.nil_append]
    rw [splitChar, if_pos rfl]
  | cons c cs ih =>
    simp only [hasChar, Bool.or_eq_false_iff, decide_eq_false_iff_not] at h
    rw [List.cons_append, splitChar, if_neg h.1, ih h.2]

/-- Membership distributes over append. -/
theorem hasChar_append (sep : Char) (x y : List Char) :
    hasChar sep (x ++ y) = (hasChar sep x || hasChar sep y) := by
  induction x with
  | nil => rfl
  | cons c cs ih => simp [hasChar, ih, Bool.or_assoc]


theorem string_toList_append (a b : String) :
    (a ++ b).toList = a.toList ++ b.toList := by
  simp [String.toList]

/-- Claim C1 (code bug): the column `calSortinoMV` stores under
`Sortino_MV_w` is the plain rolling standard deviation of all window
values, not the downside standard deviation of the strictly-negative
values that the same function computes into its discarded `result_list`.
On the column `[1, 2]` with window `2` the stored cell at position 1 is
the (variance-encoded) std of `[1, 2]`, while the downside semantics the
spec states — and `result_list` implements — is missing there, the window
holding no negative value. -/
theorem sortino_stored_not_downside :
    calSortinoMVStored 2 [some 1, some 2] = [none, some (1/2)]
    ∧ calSortinoMVResult 2 [some 1, some 2] = [none, none] := by
  constructor
  · norm_num [calSortinoMVStored, rollVarAt, allSome, svarQ, meanQ, List.range_succ]
  · norm_num [calSortinoMVResult, negOnly, List.range_succ]

/-- Claim C2, counterexample: on the input `"9-8-1997"` — a date in the
`M-D-YYYY` form the spec says is accepted — `standardizeTimeString`
returns `"9/08/1997"`, which is not in canonical `YYYY/MM/DD` form: the
function never reorders components and never pads the first one. -/
theorem standardizeTimeString_cex :
    standardizeTimeString "9-8-1997" = some "9/08/1997"
    ∧ specCanonicalYMD "9/08/1997" = false := by
  constructor
  · decide
  · decide

/-- Claim C2, amended: `standardizeTimeString` treats its input as
components in year-month-day order.  For any three `'-'`-free components
joined by `'-'` (and likewise `'-'`-and-`'/'`-free components joined by
`'/'`) it returns the first component unchanged, then the second and the
third zero-padded to two characters, joined by `'/'` — which is the
canonical `YYYY/MM/DD` exactly when the input was already year-first with
a four-digit year; and on any string containing neither separator it
fails (unhandled exception, modelled as `none`). -/
theorem standardizeTimeString_amended (a b c a2 b2 c2 : String) (s : String)
    (ha : hasChar '-' a.toList = false)
    (hb : hasChar '-' b.toList = false)
    (hc : hasChar '-' c.toList = false)
    (ha2 : hasChar '-' a2.toList = false)
    (hb2 : hasChar '-' b2.toList = false)
    (hc2 : hasChar '-' c2.toList = false)
    (ha2s : hasChar '/' a2.toList = false)
    (hb2s : hasChar '/' b2.toList = false)
    (hc2s : hasChar '/' c2.toList = false)
    (hs1 : hasChar '-' s.toList = false)
    (hs2 : hasChar '/' s.toList = false) :
    standardizeTimeString (a ++ "-" ++ b ++ "-" ++ c) =
      some (String.mk (a.toList ++ '/' :: (pad2 b.toList ++ '/' :: pad2 c.toList)))
    ∧ standardizeTimeString (a2 ++ "/" ++ b2 ++ "/" ++ c2) =
      some (String.mk (a2.toList ++ '/' :: (pad2 b2.toList ++ '/' :: pad2 c2.toList)))
    ∧ standardizeTimeString s = none := by
  have hlist : (a ++ "-" ++ b ++ "-" ++ c).toList
      = a.toList ++ '-' :: (b.toList ++ '-' :: c.toList) := by
    simp [string_toList_append]
  have hlist2 : (a2 ++ "/" ++ b2 ++ "/" ++ c2).toList
      = a2.toList ++ '/' :: (b2.toList ++ '/' :: c2.toList) := by
    simp [string_toList_append]
  refine ⟨?_, ?_, ?_⟩
  · have hdash : hasChar '-' ((a ++ "-" ++ b ++ "-" ++ c).toList) = true := by
      rw [hlist, hasChar_append]
      simp [hasChar]
    have hsplit : splitChar '-' ((a ++ "-" ++ b ++ "-" ++ c).toList)
        = [a.toList, b.toList, c.toList] := by
      rw [hlist, splitChar_append _ _ _ ha, splitChar_append _ _ _ hb,
        splitChar_nosep _ _ hc]
    rw [standardizeTimeString]
    simp only [hdash, if_pos, hsplit]
  · have hnodash : hasChar '-' ((a2 ++ "/" ++ b2 ++ "/" ++ c2).toList) = false := by
      rw [hlist2]
      simp [hasChar_append, hasChar]
      exact ⟨ha2, hb2, hc2⟩
    have hslash : hasChar '/' ((a2 ++ "/" ++ b2 ++ "/" ++ c2).toList) = true := by
      rw [hlist2]
      simp [hasChar_append, hasChar]
    have hsplit : splitChar '/' ((a2 ++ "/" ++ b2 ++ "/" ++ c2).toList)
        = [a2.toList, b2.toList, c2.toList] := by
      rw [hlist2, splitChar_append _ _ _ ha2s, splitChar_append _ _ _ hb2s,
        splitChar_nosep _ _ hc2s]
    rw [standardizeTimeString]
    simp only [hnodash, hslash, if_pos, if_neg, Bool.false_eq_true,
      not_false_eq_true, hsplit]
  · rw [standardizeTimeString]
    simp only [hs1, hs2]
    simp

/-- Witness for the amended claim C2 at concrete inputs. -/
theorem standardizeTimeString_amended_witness :
    standardizeTimeString "1997-9-8" = some "1997/09/08"
    ∧ standardizeTimeString "1997/9/8" = some "1997/09/08"
    ∧ standardizeTimeString "19970908" = none := by
  have h := standardizeTimeString_amended "1997" "9" "8" "1997" "9" "8" "19970908"
    (by decide) (by decide) (by decide) (by decide) (by decide) (by decide)
    (by decide) (by decide) (by decide) (by decide) (by decide)
  refine ⟨?_, ?_, h.2.2⟩
  · rw [show ("1997-9-8" : String) = "1997" ++ "-" ++ "9" ++ "-" ++ "8" from by decide]
    rw [h.1]
    decide
  · rw [show ("1997/9/8" : String) = "1997" ++ "/" ++ "9" ++ "/" ++ "8" from by decide]
    rw [h.2.1]
    decide


/-- Claim C7: applying the normalization operation (`zCol` / `zzCol` /
`zzzCol`, all instances of `zColFam`) to a column whose name identifies it
as an already-computed z-score — a name produced by a previous
normalization pass, i.e. starting with `z_`, `zz_` or `zzz_` — leaves the
table completely unchanged: the `'z_' in col` check fires before any
column is created or modified. -/
theorem zColFam_skips_z_columns (zp : String) (w : Nat) (df : Table) (base : String) :
    zColFam zp w df ("z_" ++ base) = df
    ∧ zColFam zp w df ("zz_" ++ base) = df
    ∧ zColFam zp w df ("zzz_" ++ base) = df := by
  have h1 : ("z_" ++ base).toList = 'z' :: '_' :: base.toList := by
    rw [string_toList_append]
    rfl
  have h2 : ("zz_" ++ base).toList = 'z' :: 'z' :: '_' :: base.toList := by
    rw [string_toList_append]
    rfl
  have h3 : ("zzz_" ++ base).toList = 'z' :: 'z' :: 'z' :: '_' :: base.toList := by
    rw [string_toList_append]
    rfl
  refine ⟨?_, ?_, ?_⟩
  · rw [zColFam, h1, if_pos]
    simp [hasZU, startsWithZU]
  · rw [zColFam, h2, if_pos]
    simp [hasZU, startsWithZU]
  · rw [zColFam, h3, if_pos]
    simp [hasZU, startsWithZU]

/-- Claim C8: for every row and retracement, in both directions, a zero
hit flag forces the realized-return cell to the numeric zero `Val.q 0`
(the row lambda's `else 0` branch), never the missing marker. -/
theorem ct_return_zero_on_no_hit (r : CTRow) (ret : ℚ) :
    (hitLong r ret = 0 → ctRetLong r ret = Val.q 0)
    ∧ (hitShort r ret = 0 → ctRetShort r ret = Val.q 0) := by
  constructor
  · intro h
    rw [ctRetLong, if_neg]
    rw [h]
    norm_num
  · intro h
    rw [ctRetShort, if_neg]
    rw [h]
    norm_num

/-- Witness for claim C8 at a concrete no-hit row. -/
theorem ct_return_zero_on_no_hit_witness :
    ctRetLong ⟨100, 105, 95, 102, some 50, some 200, some 5⟩ (1/2) = Val.q 0
    ∧ ctRetShort ⟨100, 105, 95, 102, some 50, some 200, some 5⟩ (1/2) = Val.q 0 := by
  have h := ct_return_zero_on_no_hit ⟨100, 105, 95, 102, some 50, some 200, some 5⟩ (1/2)
  constructor
  · apply h.1
    norm_num [hitLong, ltO, hitLevelLong]
  · apply h.2
    norm_num [hitShort, gtO, hitLevelShort]

/-- Claim C9: for every row with present previous-day data, the long
counter-trend logic: hit level is the previous high minus the lagged
average day range times the retracement; the hit flag is `1` exactly when
the low is strictly below the level; on a hit, the entry is the open when
it gapped below the level and the level otherwise, the exit is the close,
and (for a nonzero entry) the return is `exit/entry - 1`. -/
theorem ct_long_logic (r : CTRow) (ret ph pa : ℚ)
    (hph : r.prevHigh = some ph) (hpa : r.prevAvg = some pa) :
    hitLevelLong r ret = some (ph - pa * ret)
    ∧ (hitLong r ret = 1 ↔ r.lowP < ph - pa * ret)
    ∧ (hitLong r ret = 1 →
        hitAtLong r ret = some (if r.openP < ph - pa * ret then r.openP else ph - pa * ret)
        ∧ exitPrLong r ret = r.closeP
        ∧ ((if r.openP < ph - pa * ret then r.openP else ph - pa * ret) ≠ 0 →
            ctRetLong r ret =
              Val.q (r.closeP / (if r.openP < ph - pa * ret then r.openP else ph - pa * ret) - 1))) := by
  have hlv : hitLevelLong r ret = some (ph - pa * ret) := by
    rw [hitLevelLong, hph, hpa]
  refine ⟨hlv, ?_, ?_⟩
  · rw [hitLong, hlv]
    by_cases h : r.lowP < ph - pa * ret
    · simp [ltO, h]
    · simp [ltO, h]
  · intro h1
    have hent : hitAtLong r ret
        = some (if r.openP < ph - pa * ret then r.openP else ph - pa * ret) := by
      rw [hitAtLong, hlv, h1]
      by_cases h : r.openP < ph - pa * ret
      · simp [ltO, h]
      · simp [ltO, h]
    refine ⟨hent, ?_, ?_⟩
    · rw [exitPrLong, h1, mul_one]
    · intro hne
      rw [ctRetLong, if_pos h1, exitPrLong, h1, mul_one, hent, retFromPrices]
      simp only [if_neg hne]

/-- Witness for claim C9: the end-to-end scenario from the spec
(`prevHigh = 110`, `avgRange = 5`, `retracement = 2` gives level 100; low
98 hits; open 99 gapped below, so entry 99; close 101 gives return
`101/99 - 1 = 2/99`). -/
theorem ct_long_logic_witness :
    hitLevelLong ⟨99, 104, 98, 101, some 110, some 95, some 5⟩ 2 = some 100
    ∧ hitLong ⟨99, 104, 98, 101, some 110, some 95, some 5⟩ 2 = 1
    ∧ hitAtLong ⟨99, 104, 98, 101, some 110, some 95, some 5⟩ 2 = some 99
    ∧ ctRetLong ⟨99, 104, 98, 101, some 110, some 95, some 5⟩ 2 = Val.q (2/99) := by
  have h := ct_long_logic ⟨99, 104, 98, 101, some 110, some 95, some 5⟩ 2 110 5 rfl rfl
  have hlv110 : (110 : ℚ) - 5 * 2 = 100 := by norm_num
  rw [hlv110] at h
  have hhit : hitLong ⟨99, 104, 98, 101, some 110, some 95, some 5⟩ 2 = 1 := by
    apply h.2.1.mpr
    norm_num
  have h3 := h.2.2 hhit
  have hopen : ((99 : ℚ) < 100) = True := by norm_num
  refine ⟨h.1, hhit, ?_, ?_⟩
  · rw [h3.1]
    norm_num
  · rw [h3.2.2 (by norm_num)]
    norm_num

/-- Claim C10: on the first bar in the counter-trend generator's scope —
where the shifted `Prev_high`/`Prev_low` cells are missing, hence the hit
level is missing — both hit flags are `0` and both return cells are the
numeric zero `Val.q 0`, for every retracement and every lagged
average-range cell (every period): missing history is silently encoded as
a no-trade zero, not as a missing value. -/
theorem ct_first_bar_zero (r : CTRow) (ret : ℚ)
    (hh : r.prevHigh = none) (hl : r.prevLow = none) :
    hitLong r ret = 0 ∧ ctRetLong r ret = Val.q 0
    ∧ hitShort r ret = 0 ∧ ctRetShort r ret = Val.q 0 := by
  have hlvl : hitLevelLong r ret = none := by
    rw [hitLevelLong, hh]
  have hlvs : hitLevelShort r ret = none := by
    rw [hitLevelShort, hl]
  have h1 : hitLong r ret = 0 := by
    rw [hitLong, hlvl]
    simp [ltO]
  have h2 : hitShort r ret = 0 := by
    rw [hitShort, hlvs]
    simp [gtO]
  refine ⟨h1, ?_, h2, ?_⟩
  · rw [ctRetLong, if_neg]
    rw [h1]
    norm_num
  · rw [ctRetShort, if_neg]
    rw [h2]
    norm_num

/-- Witness for claim C10 at a concrete first-in-scope row. -/
theorem ct_first_bar_zero_witness :
    hitLong ⟨1319, 1331, 1297, 1316, none, none, some 20⟩ (3/5) = 0
    ∧ ctRetLong ⟨1319, 1331, 1297, 1316, none, none, some 20⟩ (3/5) = Val.q 0
    ∧ hitShort ⟨1319, 1331, 1297, 1316, none, none, some 20⟩ (3/5) = 0
    ∧ ctRetShort ⟨1319, 1331, 1297, 1316, none, none, some 20⟩ (3/5) = Val.q 0 :=
  ct_first_bar_zero ⟨1319, 1331, 1297, 1316, none, none, some 20⟩ (3/5) rfl rfl


/-- Prefix-restriction of a longer prefix equality. -/
theorem take_of_take {α : Type} (c c2 : List α) (t k : Nat)
    (h : c2.take t = c.take t) (hk : k ≤ t) : c2.take k = c.take k := by
  have h2 := congrArg (List.take k) h
  rwa [List.take_take, List.take_take, Nat.min_eq_left hk] at h2

/-- Cells inside an agreeing prefix agree (with default). -/
theorem getD_congr (c c2 : List ℚ) (t i : Nat)
    (h : c2.take t = c.take t) (hi : i < t) : c2.getD i 0 = c.getD i 0 := by
  have h1 : c2.get? i = c.get? i := by
    have ha : (c2.take t).get? i = (c.take t).get? i := by rw [h]
    rwa [List.get?_take hi, List.get?_take hi] at ha
  rw [List.getD_eq_get?, List.getD_eq_get?, h1]

/-- The SMA cell at `i` only reads the length-`(i+1)` prefix. -/
theorem smaAt_congr (w t i : Nat) (c c2 : List ℚ)
    (h : c2.take t = c.take t) (hi : i + 1 ≤ t) :
    smaAt w c2 i = smaAt w c i := by
  rw [smaAt, smaAt]
  by_cases hcond : w = 0 ∨ i + 1 < w
  · rw [if_pos hcond, if_pos hcond]
  · rw [if_neg hcond, if_neg hcond]
    have hw : w ≤ i + 1 := by omega
    have htk : c2.take (i + 1) = c.take (i + 1) := take_of_take c c2 t (i + 1) h hi
    rw [window_congr c c2 (i + 1) w htk hw]

/-- The EMA recurrence value at offset `n` only reads the seed window and
the source cells up to index `w - 1 + n`. -/
theorem emaAt_congr (w t : Nat) (c c2 : List ℚ) (h : c2.take t = c.take t) :
    ∀ n, w + n ≤ t → emaAt w c2 n = emaAt w c n := by
  intro n
  induction n with
  | zero =>
    intro hn
    simp only [emaAt]
    rw [take_of_take c c2 t w h (by omega)]
  | succ k ih =>
    intro hn
    simp only [emaAt]
    rw [ih (by omega), getD_congr c c2 t (w + k) h (by omega)]

/-- The EMA cell at `i` only reads the length-`(i+1)` prefix (and the
series length). -/
theorem emaAtO_congr (w t i : Nat) (c c2 : List ℚ)
    (h : c2.take t = c.take t) (hlen : c2.length = c.length) (hi : i + 1 ≤ t) :
    emaAtO w c2 i = emaAtO w c i := by
  rw [emaAtO, emaAtO, hlen]
  by_cases hcond : w = 0 ∨ c.length < w ∨ i + 1 < w
  · rw [if_pos hcond, if_pos hcond]
  · rw [if_neg hcond, if_neg hcond]
    have he : emaAt w c2 (i - (w - 1)) = emaAt w c (i - (w - 1)) :=
      emaAt_congr w t c c2 h (i - (w - 1)) (by omega)
    rw [he]

/-- Either moving-average cell at `i` only reads the length-`(i+1)`
prefix. -/
theorem maAt_congr (ty : MAType) (w t i : Nat) (c c2 : List ℚ)
    (h : c2.take t = c.take t) (hlen : c2.length = c.length) (hi : i + 1 ≤ t) :
    maAt ty w c2 i = maAt ty w c i := by
  cases ty with
  | sma => exact smaAt_congr w t i c c2 h hi
  | ema => exact emaAtO_congr w t i c c2 h hlen hi

/-- Claim C4: for every (fast, slow, MA-type) trend-following strategy
and every position `t`, the signal cell at `t` is unchanged when all bars
at positions `≥ t` are mutated — it is a function of the close series
strictly before `t` only, because the raw crossover comparison is shifted
by one bar. -/
theorem fs_signal_no_lookahead (ty : MAType) (F S t : Nat) (c c2 : List ℚ)
    (hlen : c2.length = c.length) (hpre : ∀ i, i < t → c2.get? i = c.get? i) :
    (createFSsignal ty F S c2).get? t = (createFSsignal ty F S c).get? t := by
  have htake : c2.take t = c.take t := take_congr c c2 t hpre
  rw [createFSsignal, createFSsignal, get_range_map, get_range_map, hlen]
  by_cases ht : t < c.length
  · rw [if_pos ht, if_pos ht]
    by_cases h0 : t = 0
    · rw [if_pos h0, if_pos h0]
    · rw [if_neg h0, if_neg h0,
        maAt_congr ty F t (t - 1) c c2 htake hlen (by omega),
        maAt_congr ty S t (t - 1) c c2 htake hlen (by omega)]
  · rw [if_neg ht, if_neg ht]

/-- Witness for claim C4: mutating the bar at position 2 (and later) does
not change the signal at position 2. -/
theorem fs_signal_no_lookahead_witness :
    (createFSsignal MAType.sma 1 2 [(1:ℚ), 2, 100]).get? 2
      = (createFSsignal MAType.sma 1 2 [(1:ℚ), 2, 3]).get? 2 := by
  apply fs_signal_no_lookahead MAType.sma 1 2 2 [(1:ℚ), 2, 3] [(1:ℚ), 2, 100] rfl
  intro i hi
  interval_cases i
  · rfl
  · rfl


/-- Claim C5: the `EMA_w` column is missing before index `w - 1`, its
seed at index `w - 1` is the arithmetic mean of the first `w` source
values, and from index `w` on each cell satisfies
`EMA[i] = EMA[i-1]*(1-k) + series[i]*k` with `k = 2/(w+1)`. -/
theorem calEMA_spec (w : Nat) (xs : List ℚ) (hw : 1 ≤ w) (hlen : w ≤ xs.length) :
    (∀ i, i < w - 1 → (calEMA w xs).get? i = some none)
    ∧ (calEMA w xs).get? (w - 1) = some (some (meanQ (xs.take w)))
    ∧ (∀ i, w ≤ i → i < xs.length →
        ∃ p x, (calEMA w xs).get? (i - 1) = some (some p)
          ∧ xs.get? i = some x
          ∧ (calEMA w xs).get? i
            = some (some (p * (1 - 2 / ((w : ℚ) + 1)) + x * (2 / ((w : ℚ) + 1))))) := by
  refine ⟨?_, ?_, ?_⟩
  · intro i hi
    rw [calEMA, get_range_map, if_pos (by omega), emaAtO, if_pos (by omega)]
  · rw [calEMA, get_range_map, if_pos (by omega), emaAtO, if_neg (by omega)]
    have h0 : w - 1 - (w - 1) = 0 := Nat.sub_self _
    rw [h0]
    simp only [emaAt]
  · intro i hwi hi
    have hx : xs.get? i = some (xs.getD i 0) := by
      rw [List.getD_eq_get?]
      cases hq : xs.get? i with
      | none =>
        have := List.get?_eq_none.mp hq
        omega
      | some v => rfl
    refine ⟨emaAt w xs (i - w), xs.getD i 0, ?_, hx, ?_⟩
    · rw [calEMA, get_range_map, if_pos (by omega), emaAtO, if_neg (by omega)]
      have e1 : i - 1 - (w - 1) = i - w := by omega
      rw [e1]
    · rw [calEMA, get_range_map, if_pos hi, emaAtO, if_neg (by omega)]
      have e2 : i - (w - 1) = (i - w) + 1 := by omega
      rw [e2]
      simp only [emaAt]
      have e3 : w + (i - w) = i := by omega
      rw [e3]

/-- Witness for claim C5 on `[1,2,3,4]` with window 2: seed
`EMA[1] = 3/2`, then `EMA[2] = 3/2*(1/3) + 3*(2/3) = 5/2`. -/
theorem calEMA_spec_witness :
    (calEMA 2 [(1:ℚ), 2, 3, 4]).get? 0 = some none
    ∧ (calEMA 2 [(1:ℚ), 2, 3, 4]).get? 1 = some (some (3/2))
    ∧ (calEMA 2 [(1:ℚ), 2, 3, 4]).get? 2 = some (some (5/2)) := by
  have h := calEMA_spec 2 [(1:ℚ), 2, 3, 4] (by norm_num) (by norm_num)
  have h1 : (calEMA 2 [(1:ℚ), 2, 3, 4]).get? 1 = some (some (3/2)) := by
    have h2 := h.2.1
    norm_num [meanQ] at h2
    exact h2
  refine ⟨h.1 0 (by norm_num), h1, ?_⟩
  obtain ⟨p, x, hp, hx, hrec⟩ := h.2.2 2 (by norm_num) (by norm_num)
  rw [h1] at hp
  have hp2 : p = 3/2 := by
    injection hp with hp
    injection hp with hp
    exact hp.symm
  have hx2 : x = 3 := by
    injection hx with hx
    exact hx.symm
  rw [hrec, hp2, hx2]
  norm_num

/-- Claim C6: the `Prev_w_AvDayrange` cell at `t ≥ w` is the mean of
`(high - low)` over bars `t-w .. t-1` (the trailing-window mean shifted
forward by one bar), and is unchanged when bar `t` or any later bar is
mutated. -/
theorem prevAvDayrange_spec (w t : Nat) (high low h2 l2 : List ℚ)
    (hw : 1 ≤ w) (hwt : w ≤ t) (hlen : high.length = low.length)
    (ht : t < high.length)
    (hh : h2.length = high.length) (hl : l2.length = low.length)
    (hp1 : ∀ i, i < t → h2.get? i = high.get? i)
    (hp2 : ∀ i, i < t → l2.get? i = low.get? i) :
    (prevAvDayrange w high low).get? t
      = some (some (meanQ
          (((List.zipWith (fun h l => h - l) high low).drop (t - w)).take w)))
    ∧ (prevAvDayrange w h2 l2).get? t = (prevAvDayrange w high low).get? t := by
  have hdr : (List.zipWith (fun h l => h - l) high low).length = high.length := by
    rw [List.length_zipWith, ← hlen, Nat.min_self]
  have hdr2 : (List.zipWith (fun h l => h - l) h2 l2).length = high.length := by
    rw [List.length_zipWith, hh, hl, ← hlen, Nat.min_self]
  have htake : (List.zipWith (fun h l => h - l) h2 l2).take t
      = (List.zipWith (fun h l => h - l) high low).take t := by
    rw [List.zipWith_distrib_take, List.zipWith_distrib_take,
      take_congr high h2 t hp1, take_congr low l2 t hp2]
  constructor
  · rw [prevAvDayrange, get_range_map, hdr, if_pos ht, if_neg (by omega),
      smaAt, if_neg (by omega)]
    have e1 : t - 1 + 1 - w = t - w := by omega
    rw [e1]
  · rw [prevAvDayrange, prevAvDayrange, get_range_map, get_range_map, hdr, hdr2,
      if_pos ht, if_pos ht, if_neg (by omega), if_neg (by omega)]
    rw [smaAt_congr w t (t - 1)
      (List.zipWith (fun h l => h - l) high low)
      (List.zipWith (fun h l => h - l) h2 l2) htake (by omega)]

/-- Witness for claim C6: with window 1 and `t = 1`, the cell is the
previous bar's `high - low`, and mutating bar 1 does not change it. -/
theorem prevAvDayrange_spec_witness :
    (prevAvDayrange 1 [(10:ℚ), 20] [(4:ℚ), 12]).get? 1 = some (some 6)
    ∧ (prevAvDayrange 1 [(10:ℚ), 99] [(4:ℚ), 1]).get? 1
      = (prevAvDayrange 1 [(10:ℚ), 20] [(4:ℚ), 12]).get? 1 := by
  have h := prevAvDayrange_spec 1 1 [(10:ℚ), 20] [(4:ℚ), 12] [(10:ℚ), 99] [(4:ℚ), 1]
    (by norm_num) (by norm_num) (by norm_num) (by norm_num) (by norm_num) (by norm_num)
    (fun i hi => by interval_cases i; rfl)
    (fun i hi => by interval_cases i; rfl)
  refine ⟨?_, h.2⟩
  rw [h.1]
  norm_num [meanQ]


/-- Cell of an index-built `Val` column. -/
theorem getV_range_map (f : Nat → Val) (n i : Nat) (hi : i < n) :
    getV ((List.range n).map f) i = f i := by
  rw [getV, get_range_map, if_pos hi]
  rfl

/-- Cell of a shifted `Val` column. -/
theorem getV_shiftV (c : List Val) (i : Nat) (hi : i < c.length) :
    getV (shiftV c) i = if i = 0 then Val.nan else getV c (i - 1) := by
  rw [shiftV, getV_range_map _ _ _ hi]

/-- Claim C3, counterexample: with window 2 on the series `[5, 5, 7]`,
the lagged trailing std at position 2 is `0` (the window `[5, 5]` is
constant), and the z-score cell the code produces there is `+inf` — an
IEEE sentinel, not the missing marker. -/
theorem zscore_zero_std_cex :
    getV (zColVals 2 [some 5, some 5, some 7]) 2 = Val.pinf
    ∧ laggedVar 2 [some 5, some 5, some 7] 2 = some 0
    ∧ Val.pinf ≠ Val.nan := by
  refine ⟨?_, ?_, by decide⟩
  · norm_num [zColVals, getV, shiftV, rollMeanColO, stdColO, rollMeanAt, rollVarAt,
      allSome, svarQ, meanQ, getOq, oqVal, stdOfVar, vsub, vdivStd, qdivVal, List.range_succ]
  · norm_num [laggedVar, rollVarAt, allSome, svarQ, meanQ]

/-- Claim C3, amended: at every position whose one-bar-lagged trailing
std is zero (with lagged mean `m` and current value `x`), the z-score
cell is the missing marker `NaN` exactly when `x = m`, and otherwise is
`+inf` or `-inf` by the sign of `x - m` — an IEEE sentinel rather than
the missing marker; no error is raised either way. -/
theorem zscore_zero_std_amended (w t : Nat) (xs : List (Option ℚ)) (x m : ℚ)
    (ht : t < xs.length) (hx : getOq xs t = some x)
    (hm : laggedMean w xs t = some m) (hv : laggedVar w xs t = some 0) :
    getV (zColVals w xs) t
      = (if x = m then Val.nan else if m < x then Val.pinf else Val.ninf) := by
  have ht0 : t ≠ 0 := by
    intro h0
    rw [h0, laggedMean, if_pos rfl] at hm
    exact Option.noConfusion hm
  have hmean : rollMeanAt w xs (t - 1) = some m := by
    rw [laggedMean, if_neg ht0] at hm
    exact hm
  have hvar : rollVarAt w xs (t - 1) = some 0 := by
    rw [laggedVar, if_neg ht0] at hv
    exact hv
  have hlm : ((rollMeanColO w xs).map oqVal).length = xs.length := by
    rw [List.length_map, rollMeanColO, List.length_map, List.length_range]
  have hls : (stdColO w xs).length = xs.length := by
    rw [stdColO, List.length_map, List.length_range]
  have hmcol : getV (shiftV ((rollMeanColO w xs).map oqVal)) t = Val.q m := by
    rw [getV_shiftV _ _ (by omega), if_neg ht0, getV, List.get?_map, rollMeanColO,
      get_range_map, if_pos (by omega), hmean]
    rfl
  have hscol : getV (shiftV (stdColO w xs)) t = Val.q 0 := by
    rw [getV_shiftV _ _ (by omega), if_neg ht0, stdColO, getV_range_map _ _ _ (by omega),
      hvar, stdOfVar]
    simp
  simp only [zColVals]
  rw [getV_range_map _ _ _ ht, hmcol, hscol, hx]
  rw [show oqVal (some x) = Val.q x from rfl]
  rw [show vsub (Val.q x) (Val.q m) = Val.q (x - m) from rfl]
  rw [show vdivStd (Val.q (x - m)) (Val.q 0) = qdivVal (x - m) 0 from rfl]
  rw [qdivVal, if_pos rfl]
  by_cases hxm : x = m
  · subst hxm
    simp
  · rw [if_neg hxm]
    rcases lt_or_gt_of_ne hxm with hlt | hgt
    · rw [if_neg (by linarith : ¬ (0 < x - m)), if_pos (by linarith : x - m < 0),
        if_neg (by linarith : ¬ m < x)]
    · rw [if_pos (by linarith : 0 < x - m), if_pos (by linarith : m < x)]

/-- Witness for the amended claim C3: the `x > m` case of the
counterexample series, and the `x = m` case on a constant series. -/
theorem zscore_zero_std_amended_witness :
    getV (zColVals 2 [some 5, some 5, some 7]) 2 = Val.pinf
    ∧ getV (zColVals 2 [some 5, some 5, some 5]) 2 = Val.nan := by
  constructor
  · have h := zscore_zero_std_amended 2 2 [some 5, some 5, some 7] 7 5
      (by norm_num) (by rfl)
      (by norm_num [laggedMean, rollMeanAt, allSome, meanQ])
      (by norm_num [laggedVar, rollVarAt, allSome, svarQ, meanQ])
    rw [h]
    norm_num
  · have h := zscore_zero_std_amended 2 2 [some 5, some 5, some 5] 5 5
      (by norm_num) (by rfl)
      (by norm_num [laggedMean, rollMeanAt, allSome, meanQ])
      (by norm_num [laggedVar, rollVarAt, allSome, svarQ, meanQ])
    rw [h]
    norm_num

end MLTrend
